import Mathlib

/-
  Verification development for the playlist-converter backend
  (YouTube → Spotify playlist conversion pipeline).

  Strings are modelled as `List Char`.  Each JavaScript regex transform from
  the source is embedded as a structurally recursive scanner (using a fuel
  argument equal to the input length where the recursion is not structural,
  so that every definition is kernel-computable).  Case-insensitive matching
  is modelled over the ASCII range, matching the behaviour of the source on
  the inputs of interest.
-/

namespace PlaylistConv

/-- Code points matched by the ECMAScript regex class `\s` (and treated as
whitespace by `String.prototype.trim`). -/
def isWs (c : Char) : Bool :=
  let n := c.toNat
  n == 9 || n == 10 || n == 11 || n == 12 || n == 13 || n == 32 ||
  n == 160 || n == 0x1680 || (0x2000 ≤ n && n ≤ 0x200a) ||
  n == 0x2028 || n == 0x2029 || n == 0x202f || n == 0x205f ||
  n == 0x3000 || n == 0xfeff

/-- Code points matched by the ECMAScript `.` (anything but a line
terminator; the `s` flag is not set on any regex in the source). -/
def isDot (c : Char) : Bool :=
  let n := c.toNat
  !(n == 10 || n == 13 || n == 0x2028 || n == 0x2029)

/-- ECMAScript `\d`: the ASCII digits. -/
def isDigitCh (c : Char) : Bool :=
  48 ≤ c.toNat && c.toNat ≤ 57

/-- ASCII fragment of `String.prototype.toLowerCase`, applied characterwise
(65 = 'A', 90 = 'Z'). -/
def lowerChar (c : Char) : Char :=
  if 65 ≤ c.toNat ∧ c.toNat ≤ 90 then Char.ofNat (c.toNat + 32) else c

/-- `title.toLowerCase()` on the list-of-characters model. -/
def lowerStr (s : List Char) : List Char := s.map lowerChar

/-- Case-insensitive prefix test used to model the `i` regex flag: the
pattern `pat` is given lowercase, the scanned text is lowercased on the fly. -/
def ciStartsWith (pat s : List Char) : Bool :=
  (s.take pat.length).map lowerChar == pat

/-! ### Step 2 of `cleanYoutubeTitle` (server.js:181):
`replace(/[\(\[].*?(official|...|remix).*?[\)\]]/gi, ' ')` -/

def isOpener (c : Char) : Bool := c == '(' || c == '['

def isCloser (c : Char) : Bool := c == ')' || c == ']'

/-- The keyword alternation of the bracket-stripping regex, in source order. -/
def bracketKeywords : List (List Char) :=
  ["official", "music", "video", "audio", "lyric", "visualizer", "hq", "hd",
   "4k", "1080p", "720p", "live", "session", "explicit", "remastered",
   "album", "ep", "single", "radio edit", "remix"].map String.toList

/-- Lazy `.*?[\)\]]`: the least number of characters consumed up to and
including the first closing bracket, all skipped characters being `.`-matchable. -/
def findCloser : List Char → Option Nat
  | [] => none
  | c :: cs =>
    if isCloser c then some 0
    else if isDot c then (findCloser cs).map (· + 1)
    else none

/-- Try the keyword alternatives in order at the current position; on a
textual keyword match the continuation `.*?[\)\]]` must also succeed
(backtracking to the next alternative otherwise).  Returns the number of
characters consumed from the keyword on (keyword, gap, closer). -/
def tryKws (kws : List (List Char)) (s : List Char) : Option Nat :=
  match kws with
  | [] => none
  | k :: rest =>
    if ciStartsWith k s then
      match findCloser (s.drop k.length) with
      | some b => some (k.length + b + 1)
      | none => tryKws rest s
    else tryKws rest s

/-- Lazy `.*?(kw...)` body after an opening bracket: advance over
`.`-matchable characters to the first position where some keyword (with its
continuation) matches; returns total characters consumed after the opener. -/
def matchInner : List Char → Option Nat
  | [] => none
  | c :: cs =>
    match tryKws bracketKeywords (c :: cs) with
    | some n => some n
    | none => if isDot c then (matchInner cs).map (· + 1) else none

/-- Global replacement scan of the bracket-stripping regex; each match is
replaced by a single space and scanning resumes after the match. -/
def stripBracketsGo : Nat → List Char → List Char
  | _, [] => []
  | 0, s => s
  | fuel + 1, c :: cs =>
    if isOpener c then
      match matchInner cs with
      | some n => ' ' :: stripBracketsGo fuel (cs.drop n)
      | none => c :: stripBracketsGo fuel cs
    else c :: stripBracketsGo fuel cs

def stripBrackets (s : List Char) : List Char := stripBracketsGo s.length s

/-! ### Step 3 (server.js:183): `split(/\s+[-â€“|\/]+\s+/)[0]`
The separator character class is taken verbatim from the source file, whose
bytes decode to `-`, U+00E2, U+20AC, U+201C, `|`, `/`: the en dash the
comment suggests was corrupted (UTF-8 bytes of U+2013 re-read as cp1252)
into the three code points U+00E2 U+20AC U+201C. -/

def isSepChar (c : Char) : Bool :=
  c == '-' || c == 'â' || c == '€' || c == '“' ||
  c == '|' || c == '/'

/-- Does a match of `\s+[-â€“|\/]+\s+` start at the head of the string?
(The three character classes are pairwise disjoint, so greedy runs need no
backtracking.) -/
def sepMatchAt : List Char → Bool
  | [] => false
  | c :: rest =>
    isWs c &&
    (match rest.dropWhile isWs with
     | [] => false
     | d :: rest2 =>
       isSepChar d &&
       (match rest2.dropWhile isSepChar with
        | [] => false
        | e :: _ => isWs e))

/-- `[0]` of the split: everything strictly before the first separator match. -/
def splitTruncate : List Char → List Char
  | [] => []
  | c :: cs => if sepMatchAt (c :: cs) then [] else c :: splitTruncate cs

/-! ### Step 4 (server.js:185): `replace(/\s+\(?(feat|ft)\.?\s+.*?\)?/gi, '')` -/

/-- `\.?\s+.*?\)?` after the feat/ft keyword: optional dot, then mandatory
whitespace run (greedy), then the lazy tail which consumes only an optional
immediately-following `)`. -/
def featDotWs (t : List Char) : Option Nat :=
  let p : Nat × List Char :=
    match t with
    | '.' :: t1 => (1, t1)
    | _ => (0, t)
  match p.2 with
  | c :: t2 =>
    if isWs c then
      let r := (t2.takeWhile isWs).length
      let cl : Nat :=
        match t2.dropWhile isWs with
        | ')' :: _ => 1
        | _ => 0
      some (p.1 + 1 + r + cl)
    else none
  | [] => none

/-- `(feat|ft)\.?\s+.*?\)?` (the two alternatives have incompatible second
characters, so alternation order cannot matter). -/
def featKw (t : List Char) : Option Nat :=
  if ciStartsWith ("feat".toList) t then (featDotWs (t.drop 4)).map (· + 4)
  else if ciStartsWith ("ft".toList) t then (featDotWs (t.drop 2)).map (· + 2)
  else none

/-- `\(?(feat|ft)\.?\s+.*?\)?`: optional opening parenthesis first. -/
def featCore (t : List Char) : Option Nat :=
  match t with
  | '(' :: t1 => (featKw t1).map (· + 1)
  | _ => featKw t

/-- Global replacement scan: a match must start with a whitespace run, and
a failed start position inside a whitespace run fails at every later
position of the same run, so advancing one character at a time is faithful. -/
def stripFeatGo : Nat → List Char → List Char
  | _, [] => []
  | 0, s => s
  | fuel + 1, c :: cs =>
    if isWs c then
      match featCore (cs.dropWhile isWs) with
      | some k => stripFeatGo fuel (cs.drop ((cs.takeWhile isWs).length + k))
      | none => c :: stripFeatGo fuel cs
    else c :: stripFeatGo fuel cs

def stripFeat (s : List Char) : List Char := stripFeatGo s.length s

/-! ### Step 5 (server.js:187): `replace(/\s*\(\d{4}\)\s*$/, '')`
A single anchored match; the leftmost match start maximizes the leading
`\s*`, so the whole trailing `ws "(dddd)" ws` block is removed. -/

/-- Given the reversed string with trailing whitespace dropped, recognize
`)dddd(` and return the kept (un-reversed) remainder. -/
def yearSuffix (r : List Char) : Option (List Char) :=
  match r with
  | ')' :: d1 :: d2 :: d3 :: d4 :: '(' :: rest =>
    if isDigitCh d1 && isDigitCh d2 && isDigitCh d3 && isDigitCh d4 then
      some ((rest.dropWhile isWs).reverse)
    else none
  | _ => none

def stripYear (s : List Char) : List Char :=
  match yearSuffix (s.reverse.dropWhile isWs) with
  | some u => u
  | none => s

/-! ### Step 6 (server.js:189): `replace(/\s+/g, ' ').trim()` -/

def collapseWsGo : Nat → List Char → List Char
  | _, [] => []
  | 0, s => s
  | fuel + 1, c :: cs =>
    if isWs c then ' ' :: collapseWsGo fuel (cs.dropWhile isWs)
    else c :: collapseWsGo fuel cs

def collapseWs (s : List Char) : List Char := collapseWsGo s.length s

def trimStr (s : List Char) : List Char :=
  ((s.dropWhile isWs).reverse.dropWhile isWs).reverse

/-- `cleanYoutubeTitle` (server.js:177-191).  A falsy (empty) title yields
the empty string immediately. -/
def cleanYoutubeTitle (title : List Char) : List Char :=
  match title with
  | [] => []
  | _ =>
    trimStr (collapseWs (stripYear (stripFeat (splitTruncate
      (stripBrackets (lowerStr title))))))

/-! ### YouTube fetch (convert.js:25-67) -/

/-- A retained source track: raw title plus optional uploader/channel hint
(`channel` is `none` when the snippet carried no `videoOwnerChannelTitle`
or an empty one, per `channelTitle || null`). -/
structure YtTrack where
  title : List Char
  channel : Option (List Char)
deriving DecidableEq

/-- One playlist item as delivered by the YouTube API: `snippet.title` and
`snippet.videoOwnerChannelTitle`, each possibly absent. -/
structure YtItem where
  title : Option (List Char)
  videoOwnerChannelTitle : Option (List Char)
deriving DecidableEq

/-- The denylist of "unavailable video" sentinel titles (convert.js:41). -/
def unavailableTitles : List (List Char) :=
  ["deleted video", "private video"].map String.toList

/-- The per-item filter of `getYoutubePlaylistItems` (convert.js:36-47): a
falsy (absent or empty) title is dropped, a title whose lowercase form is on
the denylist is dropped, anything else becomes a `YtTrack`. -/
def keepItem (it : YtItem) : Option YtTrack :=
  match it.title with
  | none => none
  | some [] => none
  | some t =>
    if lowerStr t ∈ unavailableTitles then none
    else some ⟨t, match it.videoOwnerChannelTitle with
                  | none => none
                  | some [] => none
                  | some ch => some ch⟩

/-- `getYoutubePlaylistItems` on the concatenation of all pages' items
(pagination only concatenates the per-page `items` arrays in order). -/
def getYoutubePlaylistItems (items : List YtItem) : List YtTrack :=
  items.filterMap keepItem

/-! ### Spotify search (convert.js:70-111) -/

/-- `channelName?.replace(/ - Topic|VEVO/gi, '')`: global scan removing
each occurrence of " - Topic" (first alternative) or "VEVO",
case-insensitively. -/
def stripChannelNoiseGo : Nat → List Char → List Char
  | _, [] => []
  | 0, s => s
  | fuel + 1, c :: cs =>
    if ciStartsWith (" - topic".toList) (c :: cs) then
      stripChannelNoiseGo fuel ((c :: cs).drop 8)
    else if ciStartsWith ("vevo".toList) (c :: cs) then
      stripChannelNoiseGo fuel ((c :: cs).drop 4)
    else c :: stripChannelNoiseGo fuel cs

def stripChannelNoise (s : List Char) : List Char :=
  stripChannelNoiseGo s.length s

/-- `channelName?.replace(/ - Topic|VEVO/gi, '').trim() || null`
(convert.js:79): an absent channel, or one that cleans to the empty string,
yields no artist hint. -/
def cleanChannel : Option (List Char) → Option (List Char)
  | none => none
  | some ch =>
    match trimStr (stripChannelNoise ch) with
    | [] => none
    | c :: cs => some (c :: cs)

/-- The strategy labels (`attempt.desc` in convert.js:86-89). -/
inductive Strategy
  | precise
  | combined
  | titleOnly
deriving DecidableEq

structure SearchAttempt where
  q : List Char
  desc : Strategy
deriving DecidableEq

/-- `track:"<title>" artist:"<channel>"` (convert.js:86). -/
def preciseQuery (t ch : List Char) : List Char :=
  "track:\"".toList ++ t ++ "\" artist:\"".toList ++ ch ++ "\"".toList

/-- `"<title>" "<channel>"` (convert.js:87). -/
def combinedQuery (t ch : List Char) : List Char :=
  "\"".toList ++ t ++ "\" \"".toList ++ ch ++ "\"".toList

/-- The `searchAttempts` list built in convert.js:84-89: `Precise` and
`Combined` only when a (cleaned) channel hint exists, then always
`Cleaned Title Only`. -/
def buildSearchAttempts (cleanedTitle : List Char)
    (cleanedChannel : Option (List Char)) : List SearchAttempt :=
  (match cleanedChannel with
   | some ch =>
     [⟨preciseQuery cleanedTitle ch, Strategy.precise⟩,
      ⟨combinedQuery cleanedTitle ch, Strategy.combined⟩]
   | none => []) ++ [⟨cleanedTitle, Strategy.titleOnly⟩]

/-- A track in a Spotify search response; only the canonical URI feeds the
match outcome. -/
structure SpotifyTrack where
  uri : List Char
deriving DecidableEq

/-- Outcome of one `sp.searchTracks(q, {limit: 1})` call: the items list,
or a thrown error carrying `err.statusCode`. -/
inductive SearchReply
  | ok (items : List SpotifyTrack)
  | apiError (statusCode : Nat)
deriving DecidableEq

/-- The destination catalog, as a deterministic query → reply oracle. -/
def SearchOracle : Type := List Char → SearchReply

/-- The strategy loop of convert.js:91-108: first non-empty result wins
(returning `items[0].uri`); an empty result or a non-429 error moves on to
the next attempt; a 429 error breaks out, yielding not-found. -/
def runAttempts (sp : SearchOracle) : List SearchAttempt → Option (List Char)
  | [] => none
  | a :: rest =>
    match sp a.q with
    | SearchReply.ok (t :: _) => some t.uri
    | SearchReply.ok [] => runAttempts sp rest
    | SearchReply.apiError sc =>
      if sc == 429 then none else runAttempts sp rest

/-- `searchSpotifyTrack` (convert.js:70-111), for a present client: a falsy
original title or a title that cleans to the empty string is not-found
without touching the catalog. -/
def searchSpotifyTrack (sp : SearchOracle) (yt : YtTrack) : Option (List Char) :=
  match yt.title with
  | [] => none
  | _ =>
    match cleanYoutubeTitle yt.title with
    | [] => none
    | c :: cs =>
      runAttempts sp (buildSearchAttempts (c :: cs) (cleanChannel yt.channel))

/-! ### Batched playlist writes (convert.js:129-158) -/

/-- The chunking loop of convert.js:141-142: successive `slice(i, i+100)`. -/
def chunksGo {α : Type} : Nat → List α → List (List α)
  | _, [] => []
  | 0, _ => []
  | fuel + 1, x :: xs => ((x :: xs).take 100) :: chunksGo fuel ((x :: xs).drop 100)

def chunks {α : Type} (l : List α) : List (List α) := chunksGo l.length l

/-- A thrown Spotify API error, as inspected by the writer
(`err.message`, `err.statusCode`). -/
structure ApiErr where
  message : List Char
  statusCode : Nat
deriving DecidableEq

/-- `Failed adding chunk: ${err.message} (Status: ${err.statusCode})`
(convert.js:148). -/
def failedChunkMsg (e : ApiErr) : List Char :=
  "Failed adding chunk: ".toList ++ e.message ++ " (Status: ".toList ++
    Nat.toDigits 10 e.statusCode ++ ")".toList

/-- The destination catalog's add-tracks call, as an oracle from chunk
index and chunk content to success or a thrown error. -/
def WriteOracle : Type := Nat → List (List Char) → Except ApiErr Unit

/-- The chunk loop body (convert.js:141-152): accumulates `addedCount` over
successful chunks and a failure message per failed chunk, never stopping
early. -/
def addLoop (w : WriteOracle) : Nat → List (List (List Char)) → Nat × List (List Char)
  | _, [] => (0, [])
  | i, c :: rest =>
    let p := addLoop w (i + 1) rest
    match w i c with
    | Except.ok _ => (c.length + p.1, p.2)
    | Except.error e => (p.1, failedChunkMsg e :: p.2)

/-- The writer's aggregate result (convert.js:154-157): `error` is present
exactly when `success` is false. -/
structure BatchWriteResult where
  success : Bool
  added_count : Nat
  error : Option (List Char)
deriving DecidableEq

/-- `addTracksToSpotifyPlaylist` (convert.js:129-158): empty input
short-circuits to `{success: true, added_count: 0}`; otherwise every chunk
is attempted and failure messages are joined with `'; '`. -/
def addTracksToSpotifyPlaylist (w : WriteOracle)
    (trackUris : List (List Char)) : BatchWriteResult :=
  match trackUris with
  | [] => ⟨true, 0, none⟩
  | u :: us =>
    let p := addLoop w 0 (chunks (u :: us))
    match p.2 with
    | [] => ⟨true, p.1, none⟩
    | e :: es => ⟨false, p.1, some (List.intercalate "; ".toList (e :: es))⟩

/-! ### Result partition and report assembly (convert.js:220-265) -/

/-- The matched-URI list built by the `forEach` of convert.js:223-229. -/
def spotifyTrackUris (results : List (Option (List Char))) : List (List Char) :=
  results.filterMap id

/-- The unmatched-title list of the same `forEach`: the original raw title
of every track whose search result is null, in source order. -/
def notFoundTracks (tracks : List YtTrack)
    (results : List (Option (List Char))) : List (List Char) :=
  (tracks.zip results).filterMap fun p =>
    match p.2 with
    | some _ => none
    | none => some p.1.title

/-- The fields of `resultData` (convert.js:256-265) that the report
invariants speak about. -/
structure ResultData where
  total_youtube_tracks : Nat
  found_spotify_tracks : Nat
  tracks_added : Nat
  not_found_tracks : List (List Char)
  api_errors : List (List Char)
deriving DecidableEq

/-- `addResult.success ? [] : [addResult.error]` (convert.js:264). -/
def apiErrorsOf (r : BatchWriteResult) : List (List Char) :=
  if r.success then [] else [r.error.getD []]

/-- The successful-conversion report stage (convert.js:220-265): search all
tracks, partition, batch-write the matched URIs, assemble `resultData`. -/
def convertReport (sp : SearchOracle) (w : WriteOracle)
    (tracks : List YtTrack) : ResultData :=
  let results := tracks.map (searchSpotifyTrack sp)
  let uris := spotifyTrackUris results
  let addResult := addTracksToSpotifyPlaylist w uris
  ⟨tracks.length, uris.length, addResult.added_count,
   notFoundTracks tracks results, apiErrorsOf addResult⟩

/-- Is the write of the indexed chunk `p` accepted by the oracle? -/
def chunkOk (w : WriteOracle) (p : Nat × List (List Char)) : Bool :=
  match w p.1 p.2 with
  | Except.ok _ => true
  | Except.error _ => false

/-- The failure messages of all failing chunks, in chunk order. -/
def chunkFailMsgs (w : WriteOracle) (uris : List (List Char)) : List (List Char) :=
  ((chunks uris).enumFrom 0).filterMap fun p =>
    match w p.1 p.2 with
    | Except.ok _ => none
    | Except.error e => some (failedChunkMsg e)

/-- A character that is not whitespace and not an opening bracket; on such
inputs every cleaning step after lowercasing is inert. -/
def plainChar (c : Char) : Bool :=
  !(isWs c) && !(c == '(') && !(c == '[')


/-! ## Helper lemmas -/

theorem chunksGo_flatten {α : Type} :
    ∀ (fuel : Nat) (l : List α), l.length ≤ fuel → (chunksGo fuel l).flatten = l := by
  intro fuel
  induction fuel with
  | zero =>
    intro l h
    match l with
    | [] => rfl
  | succ fuel ih =>
    intro l h
    match l with
    | [] => rfl
    | x :: xs =>
      show ((x :: xs).take 100 :: chunksGo fuel ((x :: xs).drop 100)).flatten = x :: xs
      rw [List.flatten_cons, ih ((x :: xs).drop 100) (by simp only [List.length_drop, List.length_cons] at h ⊢; omega),
        List.take_append_drop]

theorem chunks_flatten {α : Type} (l : List α) : (chunks l).flatten = l :=
  chunksGo_flatten l.length l (Nat.le_refl _)

theorem chunksGo_size {α : Type} :
    ∀ (fuel : Nat) (l : List α) (c : List α), c ∈ chunksGo fuel l → c.length ≤ 100 := by
  intro fuel
  induction fuel with
  | zero =>
    intro l c h
    match l with
    | [] => simp [chunksGo] at h
  | succ fuel ih =>
    intro l c h
    match l with
    | [] => simp [chunksGo] at h
    | x :: xs =>
      rw [show chunksGo (fuel + 1) (x :: xs)
            = (x :: xs).take 100 :: chunksGo fuel ((x :: xs).drop 100) from rfl] at h
      rcases List.mem_cons.mp h with h1 | h2
      · subst h1; rw [List.length_take]; omega
      · exact ih _ _ h2

theorem chunks_length_sum {α : Type} (l : List α) :
    ((chunks l).map List.length).sum = l.length := by
  rw [← List.length_flatten, chunks_flatten]

theorem addLoop_fst_le (w : WriteOracle) :
    ∀ (cl : List (List (List Char))) (i : Nat),
      (addLoop w i cl).1 ≤ (cl.map List.length).sum := by
  intro cl
  induction cl with
  | nil => intro i; simp [addLoop]
  | cons c rest ih =>
    intro i
    show (addLoop w i (c :: rest)).1 ≤ c.length + (rest.map List.length).sum
    simp only [addLoop]
    rcases h : w i c with _ | e <;> simp [h] <;>
      exact Nat.le_trans (ih (i + 1)) (by omega)

theorem addTracks_added_le (w : WriteOracle) (uris : List (List Char)) :
    (addTracksToSpotifyPlaylist w uris).added_count ≤ uris.length := by
  match uris with
  | [] => simp [addTracksToSpotifyPlaylist]
  | u :: us =>
    have h1 := addLoop_fst_le w (chunks (u :: us)) 0
    rw [chunks_length_sum] at h1
    simp only [List.length_cons] at h1 ⊢
    simp only [addTracksToSpotifyPlaylist]
    rcases h : (addLoop w 0 (chunks (u :: us))).2 with _ | ⟨e, es⟩ <;> simp [h] <;> omega


theorem addLoop_spec (w : WriteOracle) :
    ∀ (cl : List (List (List Char))) (i : Nat),
      addLoop w i cl =
        ((((cl.enumFrom i).filter (chunkOk w)).map (fun p => p.2.length)).sum,
         (cl.enumFrom i).filterMap fun p =>
           match w p.1 p.2 with
           | Except.ok _ => none
           | Except.error e => some (failedChunkMsg e)) := by
  intro cl
  induction cl with
  | nil => intro i; rfl
  | cons c rest ih =>
    intro i
    show addLoop w i (c :: rest) = _
    rw [show (c :: rest).enumFrom i = (i, c) :: rest.enumFrom (i + 1) from rfl]
    simp only [addLoop, ih (i + 1)]
    rcases h : w i c with _ | e <;>
      simp [List.filter_cons, List.filterMap_cons, chunkOk, h]


theorem spotifyTrackUris_none (rs : List (Option (List Char))) :
    spotifyTrackUris (none :: rs) = spotifyTrackUris rs := rfl

theorem spotifyTrackUris_some (u : List Char) (rs : List (Option (List Char))) :
    spotifyTrackUris (some u :: rs) = u :: spotifyTrackUris rs := rfl

theorem notFoundTracks_none (a : YtTrack) (ts : List YtTrack)
    (rs : List (Option (List Char))) :
    notFoundTracks (a :: ts) (none :: rs) = a.title :: notFoundTracks ts rs := rfl

theorem notFoundTracks_some (a : YtTrack) (ts : List YtTrack) (u : List Char)
    (rs : List (Option (List Char))) :
    notFoundTracks (a :: ts) (some u :: rs) = notFoundTracks ts rs := rfl

theorem partition_length (f : YtTrack → Option (List Char)) :
    ∀ (tracks : List YtTrack),
      (spotifyTrackUris (tracks.map f)).length +
        (notFoundTracks tracks (tracks.map f)).length = tracks.length := by
  intro tracks
  induction tracks with
  | nil => rfl
  | cons a l ih =>
    rw [List.map_cons]
    rcases h : f a with _ | u
    · rw [spotifyTrackUris_none, notFoundTracks_none]
      simp only [List.length_cons]
      omega
    · rw [spotifyTrackUris_some, notFoundTracks_some]
      simp only [List.length_cons]
      omega

/-- C1: the assembled report satisfies
`matchedCount = totalSourceTracks - len(unmatchedTitles)` and
`matchedCount >= tracksWritten`. -/
theorem c1_report_invariants (sp : SearchOracle) (w : WriteOracle)
    (tracks : List YtTrack) :
    (convertReport sp w tracks).found_spotify_tracks =
      (convertReport sp w tracks).total_youtube_tracks -
        (convertReport sp w tracks).not_found_tracks.length ∧
    (convertReport sp w tracks).tracks_added ≤
      (convertReport sp w tracks).found_spotify_tracks := by
  have h1 := partition_length (searchSpotifyTrack sp) tracks
  have h2 := addTracks_added_le w (spotifyTrackUris (tracks.map (searchSpotifyTrack sp)))
  simp only [convertReport]
  exact ⟨by omega, h2⟩

/-- C6: chunking covers every URI exactly once, preserving input order, and
every chunk has size at most 100. -/
theorem c6_chunking_covers (l : List (List Char)) :
    (chunks l).flatten = l ∧ ∀ c ∈ chunks l, c.length ≤ 100 :=
  ⟨chunks_flatten l, fun c hc => chunksGo_size l.length l c hc⟩

theorem c6_chunking_covers_witness :
    (chunks ["spotify:track:1".toList]).flatten = ["spotify:track:1".toList] ∧
    ("spotify:track:1".toList :: []).length ≤ 100 :=
  ⟨(c6_chunking_covers ["spotify:track:1".toList]).1,
   (c6_chunking_covers ["spotify:track:1".toList]).2 ["spotify:track:1".toList]
     (by decide)⟩


/-- C7: a failed chunk never aborts later chunks (the loop recurses past a
failure, only recording a message), the added count aggregates the sizes of
exactly the successful chunks, and an empty URI list short-circuits to a
trivial success with no chunk to write. -/
theorem c7_writer_tolerates_failed_chunks (w : WriteOracle) (uris : List (List Char))
    (i : Nat) (c : List (List Char)) (rest : List (List (List Char))) (e : ApiErr) :
    (addTracksToSpotifyPlaylist w [] = ⟨true, 0, none⟩ ∧
      chunks ([] : List (List Char)) = []) ∧
    (w i c = Except.error e →
      addLoop w i (c :: rest) =
        ((addLoop w (i + 1) rest).1,
         failedChunkMsg e :: (addLoop w (i + 1) rest).2)) ∧
    (addTracksToSpotifyPlaylist w uris).added_count =
      ((((chunks uris).enumFrom 0).filter (chunkOk w)).map
        (fun p => p.2.length)).sum := by
  refine ⟨⟨rfl, rfl⟩, ?_, ?_⟩
  · intro h
    simp only [addLoop, h]
  · match uris with
    | [] => rfl
    | u :: us =>
      simp only [addTracksToSpotifyPlaylist, addLoop_spec w (chunks (u :: us)) 0]
      rcases h : ((chunks (u :: us)).enumFrom 0).filterMap
          (fun p => match w p.1 p.2 with
            | Except.ok _ => none
            | Except.error e => some (failedChunkMsg e)) with _ | ⟨m, ms⟩ <;>
        simp [h]


theorem c7_writer_tolerates_failed_chunks_witness :
    addLoop (fun _ _ => Except.error ⟨"boom".toList, 500⟩) 0
        [["u1".toList], ["u2".toList]] =
      ((addLoop (fun _ _ => Except.error ⟨"boom".toList, 500⟩) 1 [["u2".toList]]).1,
       failedChunkMsg ⟨"boom".toList, 500⟩ ::
         (addLoop (fun _ _ => Except.error ⟨"boom".toList, 500⟩) 1 [["u2".toList]]).2) :=
  (c7_writer_tolerates_failed_chunks (fun _ _ => Except.error ⟨"boom".toList, 500⟩)
    [] 0 ["u1".toList] [["u2".toList]] ⟨"boom".toList, 500⟩).2.1 rfl

/-- C10: all per-chunk failure messages are joined with `'; '` into a single
error string, so `api_errors` has exactly one element whenever any chunk
failed, and is empty when none failed. -/
theorem c10_write_errors_joined (w : WriteOracle) (uris : List (List Char)) :
    (chunkFailMsgs w uris ≠ [] →
      (addTracksToSpotifyPlaylist w uris).error =
        some (List.intercalate "; ".toList (chunkFailMsgs w uris)) ∧
      (apiErrorsOf (addTracksToSpotifyPlaylist w uris)).length = 1) ∧
    (chunkFailMsgs w uris = [] →
      apiErrorsOf (addTracksToSpotifyPlaylist w uris) = []) := by
  match uris with
  | [] =>
    refine ⟨fun h => absurd rfl h, fun _ => rfl⟩
  | u :: us =>
    have hspec := addLoop_spec w (chunks (u :: us)) 0
    constructor
    · intro h
      rcases hm : chunkFailMsgs w (u :: us) with _ | ⟨m, ms⟩
      · exact absurd hm h
      · have : addTracksToSpotifyPlaylist w (u :: us) =
            ⟨false, (addLoop w 0 (chunks (u :: us))).1,
             some (List.intercalate "; ".toList (m :: ms))⟩ := by
          simp only [addTracksToSpotifyPlaylist]
          rw [show (addLoop w 0 (chunks (u :: us))).2 = m :: ms from by
            rw [hspec]; exact hm]
        rw [this, ← hm]
        exact ⟨rfl, rfl⟩
    · intro h
      have : addTracksToSpotifyPlaylist w (u :: us) =
          ⟨true, (addLoop w 0 (chunks (u :: us))).1, none⟩ := by
        simp only [addTracksToSpotifyPlaylist]
        rw [show (addLoop w 0 (chunks (u :: us))).2 = [] from by
          rw [hspec]; exact h]
      rw [this]
      rfl

theorem c10_write_errors_joined_witness :
    (addTracksToSpotifyPlaylist (fun _ _ => Except.error ⟨"boom".toList, 500⟩)
        ["u1".toList]).error =
      some (List.intercalate "; ".toList
        (chunkFailMsgs (fun _ _ => Except.error ⟨"boom".toList, 500⟩) ["u1".toList])) ∧
    (apiErrorsOf (addTracksToSpotifyPlaylist
        (fun _ _ => Except.error ⟨"boom".toList, 500⟩) ["u1".toList])).length = 1 :=
  (c10_write_errors_joined (fun _ _ => Except.error ⟨"boom".toList, 500⟩)
    ["u1".toList]).1 (by decide)


theorem cleanChannel_noHint : cleanChannel none = none ∧ cleanChannel (some []) = none :=
  ⟨rfl, rfl⟩

theorem searchSpotifyTrack_eq_none (sp : SearchOracle) (yt : YtTrack)
    (hct : cleanYoutubeTitle yt.title = []) : searchSpotifyTrack sp yt = none := by
  rcases ht : yt.title with _ | ⟨c, cs⟩
  · simp [searchSpotifyTrack, ht]
  · rw [ht] at hct
    simp [searchSpotifyTrack, ht, hct]

/-- C2: strategies are built in the fixed order Precise, Combined,
TitleOnly; with no usable artist hint only TitleOnly is built; execution
returns the head URI of the first attempt with a non-empty result. -/
theorem c2_strategy_order (sp : SearchOracle) (yt : YtTrack) (t ch : List Char)
    (as1 as2 : List SearchAttempt) (a : SearchAttempt)
    (tr : SpotifyTrack) (more : List SpotifyTrack) :
    buildSearchAttempts t (some ch) =
      [⟨preciseQuery t ch, Strategy.precise⟩,
       ⟨combinedQuery t ch, Strategy.combined⟩,
       ⟨t, Strategy.titleOnly⟩] ∧
    buildSearchAttempts t none = [⟨t, Strategy.titleOnly⟩] ∧
    ((yt.channel = none ∨ yt.channel = some []) →
      cleanYoutubeTitle yt.title ≠ [] →
      searchSpotifyTrack sp yt =
        runAttempts sp [⟨cleanYoutubeTitle yt.title, Strategy.titleOnly⟩]) ∧
    ((∀ b ∈ as1, sp b.q = SearchReply.ok []) →
      sp a.q = SearchReply.ok (tr :: more) →
      runAttempts sp (as1 ++ a :: as2) = some tr.uri) := by
  refine ⟨rfl, rfl, ?_, ?_⟩
  · intro hch hne
    have hchan : cleanChannel yt.channel = none := by
      rcases hch with h | h <;> rw [h] <;> rfl
    rcases ht : yt.title with _ | ⟨c, cs⟩
    · exact absurd (by rw [ht]; rfl) hne
    · rw [ht] at hne
      rcases hct : cleanYoutubeTitle (c :: cs) with _ | ⟨d, ds⟩
      · exact absurd hct hne
      · simp [searchSpotifyTrack, ht, hct, hchan, buildSearchAttempts]
  · intro hempty hfound
    induction as1 with
    | nil => simp [runAttempts, hfound]
    | cons b bs ih =>
      have hb := hempty b (by simp)
      simp only [List.cons_append, runAttempts, hb]
      exact ih fun x hx => hempty x (by simp [hx])

theorem c2_strategy_order_witness :
    searchSpotifyTrack
        (fun q => if q == "song".toList
          then SearchReply.ok [⟨"spotify:track:1".toList⟩] else SearchReply.ok [])
        ⟨"Song".toList, none⟩ =
      runAttempts
        (fun q => if q == "song".toList
          then SearchReply.ok [⟨"spotify:track:1".toList⟩] else SearchReply.ok [])
        [⟨cleanYoutubeTitle "Song".toList, Strategy.titleOnly⟩] ∧
    runAttempts
        (fun q => if q == "song".toList
          then SearchReply.ok [⟨"spotify:track:1".toList⟩] else SearchReply.ok [])
        ([] ++ ⟨"song".toList, Strategy.titleOnly⟩ :: []) =
      some ("spotify:track:1".toList) :=
  ⟨(c2_strategy_order
      (fun q => if q == "song".toList
        then SearchReply.ok [⟨"spotify:track:1".toList⟩] else SearchReply.ok [])
      ⟨"Song".toList, none⟩ [] [] [] [] ⟨[], Strategy.titleOnly⟩ ⟨[]⟩ []).2.2.1
    (Or.inl rfl) (by decide),
   (c2_strategy_order
      (fun q => if q == "song".toList
        then SearchReply.ok [⟨"spotify:track:1".toList⟩] else SearchReply.ok [])
      ⟨"Song".toList, none⟩ [] [] [] [] ⟨"song".toList, Strategy.titleOnly⟩
      ⟨"spotify:track:1".toList⟩ []).2.2.2
    (by simp) (by decide)⟩


/-- C3: a 429 on one strategy aborts only that track's remaining strategies
(yielding not-found), a non-429 error falls through to the next strategy,
and the outcome at each position of the fan-out depends only on that
position's track. -/
theorem c3_rate_limit_isolation (sp : SearchOracle)
    (as1 as2 rest : List SearchAttempt) (a : SearchAttempt) (sc : Nat)
    (tracks : List YtTrack) (i : Nat) :
    ((∀ b ∈ as1, sp b.q = SearchReply.ok [] ∨
        ∃ c, c ≠ 429 ∧ sp b.q = SearchReply.apiError c) →
      sp a.q = SearchReply.apiError 429 →
      runAttempts sp (as1 ++ a :: as2) = none) ∧
    (sp a.q = SearchReply.apiError sc → sc ≠ 429 →
      runAttempts sp (a :: rest) = runAttempts sp rest) ∧
    (∀ (h1 : i < tracks.length) (h2 : i < (tracks.map (searchSpotifyTrack sp)).length),
      (tracks.map (searchSpotifyTrack sp)).get ⟨i, h2⟩ =
        searchSpotifyTrack sp (tracks.get ⟨i, h1⟩)) := by
  refine ⟨?_, ?_, ?_⟩
  · intro hpre h429
    induction as1 with
    | nil => simp [runAttempts, h429]
    | cons b bs ih =>
      rcases hpre b (by simp) with hb | ⟨c, hc, hb⟩
      · simp only [List.cons_append, runAttempts, hb]
        exact ih fun x hx => hpre x (by simp [hx])
      · have : (c == 429) = false := by simp [hc]
        simp only [List.cons_append, runAttempts, hb, this]
        exact ih fun x hx => hpre x (by simp [hx])
  · intro ha hsc
    have : (sc == 429) = false := by simp [hsc]
    simp [runAttempts, ha, this]
  · intro h1 h2
    simp [List.get_eq_getElem, List.getElem_map]

theorem c3_rate_limit_isolation_witness :
    runAttempts (fun _ => SearchReply.apiError 429)
        ([] ++ ⟨"q1".toList, Strategy.precise⟩ ::
          [⟨"q2".toList, Strategy.combined⟩, ⟨"q3".toList, Strategy.titleOnly⟩]) = none ∧
    runAttempts (fun q => if q == "e".toList then SearchReply.apiError 500
        else SearchReply.ok [⟨"u".toList⟩])
        (⟨"e".toList, Strategy.precise⟩ :: [⟨"t".toList, Strategy.titleOnly⟩]) =
      runAttempts (fun q => if q == "e".toList then SearchReply.apiError 500
        else SearchReply.ok [⟨"u".toList⟩]) [⟨"t".toList, Strategy.titleOnly⟩] ∧
    ([(⟨"A".toList, none⟩ : YtTrack)].map
        (searchSpotifyTrack (fun _ => SearchReply.ok []))).get ⟨0, by decide⟩ =
      searchSpotifyTrack (fun _ => SearchReply.ok [])
        (([(⟨"A".toList, none⟩ : YtTrack)]).get ⟨0, by decide⟩) :=
  ⟨(c3_rate_limit_isolation (fun _ => SearchReply.apiError 429) []
      [⟨"q2".toList, Strategy.combined⟩, ⟨"q3".toList, Strategy.titleOnly⟩] []
      ⟨"q1".toList, Strategy.precise⟩ 0 [] 0).1 (by simp) rfl,
   (c3_rate_limit_isolation (fun q => if q == "e".toList then SearchReply.apiError 500
        else SearchReply.ok [⟨"u".toList⟩]) [] [] [⟨"t".toList, Strategy.titleOnly⟩]
      ⟨"e".toList, Strategy.precise⟩ 500 [] 0).2.1 (by decide) (by decide),
   (c3_rate_limit_isolation (fun _ => SearchReply.ok []) [] [] [] ⟨[], Strategy.titleOnly⟩ 0
      [⟨"A".toList, none⟩] 0).2.2 (by decide) (by decide)⟩


theorem mem_notFound_of_none (f : YtTrack → Option (List Char)) :
    ∀ (tracks : List YtTrack) (i : Nat) (h : i < tracks.length),
      f (tracks.get ⟨i, h⟩) = none →
      (tracks.get ⟨i, h⟩).title ∈ notFoundTracks tracks (tracks.map f) := by
  intro tracks
  induction tracks with
  | nil => intro i h; simp at h
  | cons a l ih =>
    intro i h hf
    match i with
    | 0 =>
      rw [show (a :: l).get ⟨0, h⟩ = a from rfl] at hf ⊢
      rw [List.map_cons, hf, notFoundTracks_none]
      exact List.mem_cons_self _ _
    | j + 1 =>
      have hj : j < l.length := by simp at h; omega
      rw [show (a :: l).get ⟨j + 1, h⟩ = l.get ⟨j, hj⟩ from rfl] at hf ⊢
      rw [List.map_cons]
      rcases ha : f a with _ | u
      · rw [notFoundTracks_none]
        exact List.mem_cons_of_mem _ (ih j hj hf)
      · rw [notFoundTracks_some]
        exact ih j hj hf

/-- C9: a track whose raw title normalizes to the empty string triggers no
catalog call (the outcome is oracle-independent), is reported not-found,
and its original raw title lands in the unmatched list. -/
theorem c9_empty_normalized_title (sp sp2 : SearchOracle) (yt : YtTrack)
    (tracks : List YtTrack) (i : Nat) (h1 : i < tracks.length)
    (hct : cleanYoutubeTitle yt.title = [])
    (hci : cleanYoutubeTitle (tracks.get ⟨i, h1⟩).title = []) :
    searchSpotifyTrack sp yt = none ∧
    searchSpotifyTrack sp yt = searchSpotifyTrack sp2 yt ∧
    (tracks.get ⟨i, h1⟩).title ∈
      notFoundTracks tracks (tracks.map (searchSpotifyTrack sp)) :=
  ⟨searchSpotifyTrack_eq_none sp yt hct,
   by rw [searchSpotifyTrack_eq_none sp yt hct, searchSpotifyTrack_eq_none sp2 yt hct],
   mem_notFound_of_none (searchSpotifyTrack sp) tracks i h1
     (searchSpotifyTrack_eq_none sp _ hci)⟩

theorem c9_empty_normalized_title_witness :
    searchSpotifyTrack (fun _ => SearchReply.ok [⟨"u".toList⟩]) ⟨" ".toList, none⟩ = none ∧
    searchSpotifyTrack (fun _ => SearchReply.ok [⟨"u".toList⟩]) ⟨" ".toList, none⟩ =
      searchSpotifyTrack (fun _ => SearchReply.apiError 404) ⟨" ".toList, none⟩ ∧
    (" ".toList) ∈
      notFoundTracks [⟨"A".toList, none⟩, ⟨" ".toList, none⟩]
        ([⟨"A".toList, none⟩, ⟨" ".toList, none⟩].map
          (searchSpotifyTrack (fun _ => SearchReply.ok [⟨"u".toList⟩]))) :=
  c9_empty_normalized_title (fun _ => SearchReply.ok [⟨"u".toList⟩])
    (fun _ => SearchReply.apiError 404) ⟨" ".toList, none⟩
    [⟨"A".toList, none⟩, ⟨" ".toList, none⟩] 1 (by decide) (by decide) (by decide)


theorem keepItem_sentinel (it : YtItem) (t : List Char)
    (htitle : it.title = some t) (hsent : lowerStr t ∈ unavailableTitles) :
    keepItem it = none := by
  rcases t with _ | ⟨c, cs⟩
  · simp [keepItem, htitle]
  · simp [keepItem, htitle, hsent]

/-- C8: an item whose lowercased title is an "unavailable" sentinel is
dropped silently (the fetched track list is the one with the item deleted,
so it is never a SourceTrack and the total count ignores it), while any
other titled item yields a track with that title and the optional uploader
hint (absent or empty channel becomes no hint). -/
theorem c8_sentinel_items_dropped (pre post : List YtItem) (it : YtItem)
    (t : List Char) (htitle : it.title = some t)
    (hsent : lowerStr t ∈ unavailableTitles) :
    getYoutubePlaylistItems (pre ++ it :: post) =
      getYoutubePlaylistItems (pre ++ post) ∧
    (∀ (it2 : YtItem) (t2 : List Char), it2.title = some t2 → t2 ≠ [] →
      lowerStr t2 ∉ unavailableTitles →
      ∃ tr : YtTrack, keepItem it2 = some tr ∧ tr.title = t2 ∧
        ((it2.videoOwnerChannelTitle = none ∨ it2.videoOwnerChannelTitle = some []) →
          tr.channel = none) ∧
        (∀ d ds, it2.videoOwnerChannelTitle = some (d :: ds) →
          tr.channel = some (d :: ds))) := by
  constructor
  · have hnone := keepItem_sentinel it t htitle hsent
    simp [getYoutubePlaylistItems, List.filterMap_append, List.filterMap_cons, hnone]
  · intro it2 t2 ht2 hne hns
    rcases t2 with _ | ⟨c, cs⟩
    · exact absurd rfl hne
    · refine ⟨⟨c :: cs, match it2.videoOwnerChannelTitle with
        | none => none
        | some [] => none
        | some ch => some ch⟩, ?_, rfl, ?_, ?_⟩
      · simp [keepItem, ht2, hns]
      · rintro (hch | hch) <;> rw [hch]
      · intro d ds hch
        rw [hch]

theorem c8_sentinel_items_dropped_witness :
    getYoutubePlaylistItems
        [⟨some "A".toList, some "chan".toList⟩,
         ⟨some "Deleted Video".toList, some "c".toList⟩,
         ⟨some "B".toList, some []⟩] =
      getYoutubePlaylistItems
        [⟨some "A".toList, some "chan".toList⟩, ⟨some "B".toList, some []⟩] ∧
    ∃ tr : YtTrack,
      keepItem ⟨some "A".toList, some "chan".toList⟩ = some tr ∧
      tr.title = "A".toList ∧ tr.channel = some "chan".toList := by
  have h := c8_sentinel_items_dropped
    [⟨some "A".toList, some "chan".toList⟩] [⟨some "B".toList, some []⟩]
    ⟨some "Deleted Video".toList, some "c".toList⟩ "Deleted Video".toList
    rfl (by decide)
  refine ⟨h.1, ?_⟩
  obtain ⟨tr, hkeep, htitle, hchan_none, hchan_some⟩ :=
    h.2 ⟨some "A".toList, some "chan".toList⟩ "A".toList rfl (by decide) (by decide)
  exact ⟨tr, hkeep, htitle, hchan_some 'c' "han".toList rfl⟩


theorem toNat_ofNat_lower (n : Nat) (h1 : 97 ≤ n) (h2 : n ≤ 122) :
    (Char.ofNat n).toNat = n := by
  interval_cases n <;> rfl

theorem lowerChar_cases (c : Char) :
    lowerChar c = c ∨ (97 ≤ (lowerChar c).toNat ∧ (lowerChar c).toNat ≤ 122) := by
  by_cases h : 65 ≤ c.toNat ∧ c.toNat ≤ 90
  · right
    have ht : (Char.ofNat (c.toNat + 32)).toNat = c.toNat + 32 :=
      toNat_ofNat_lower _ (by omega) (by omega)
    simp only [lowerChar, if_pos h, ht]
    omega
  · left
    simp [lowerChar, h]

theorem lowerChar_idem (c : Char) : lowerChar (lowerChar c) = lowerChar c := by
  by_cases h : 65 ≤ c.toNat ∧ c.toNat ≤ 90
  · have ht : (Char.ofNat (c.toNat + 32)).toNat = c.toNat + 32 :=
      toNat_ofNat_lower _ (by omega) (by omega)
    simp only [lowerChar, if_pos h]
    rw [if_neg (by rw [ht]; omega)]
  · simp [lowerChar, h]

theorem plainChar_of_lower_range (c : Char) (h1 : 97 ≤ c.toNat)
    (h2 : c.toNat ≤ 122) : plainChar c = true := by
  have hw : isWs c = false := by
    by_contra hcon
    rw [Bool.not_eq_false] at hcon
    simp only [isWs, Bool.or_eq_true, beq_iff_eq, Bool.and_eq_true,
      decide_eq_true_eq] at hcon
    omega
  have hp : (c == '(') = false := by
    by_contra hcon
    rw [Bool.not_eq_false, beq_iff_eq] at hcon
    subst hcon
    exact absurd h1 (by decide)
  have hb : (c == '[') = false := by
    by_contra hcon
    rw [Bool.not_eq_false, beq_iff_eq] at hcon
    subst hcon
    exact absurd h1 (by decide)
  simp [plainChar, hw, hp, hb]

theorem plain_not_ws (c : Char) (h : plainChar c = true) : isWs c = false := by
  simp only [plainChar, Bool.and_eq_true, Bool.not_eq_true'] at h
  exact h.1.1

theorem plain_not_opener (c : Char) (h : plainChar c = true) :
    isOpener c = false := by
  simp only [plainChar, Bool.and_eq_true, Bool.not_eq_true'] at h
  simp [isOpener, h.1.2, h.2]

theorem plain_ne_paren (c : Char) (h : plainChar c = true) : c ≠ '(' := by
  simp only [plainChar, Bool.and_eq_true, Bool.not_eq_true'] at h
  intro he
  rw [he] at h
  simp at h

theorem lowerChar_plain (c : Char) (h : plainChar c = true) :
    plainChar (lowerChar c) = true := by
  rcases lowerChar_cases c with he | ⟨h1, h2⟩
  · rw [he]; exact h
  · exact plainChar_of_lower_range _ h1 h2

theorem lowerStr_plain (s : List Char) (h : ∀ c ∈ s, plainChar c = true) :
    ∀ c ∈ lowerStr s, plainChar c = true := by
  intro c hc
  rcases List.mem_map.mp hc with ⟨d, hd, he⟩
  rw [← he]
  exact lowerChar_plain d (h d hd)

theorem lowerStr_idem (s : List Char) : lowerStr (lowerStr s) = lowerStr s := by
  induction s with
  | nil => rfl
  | cons c cs ih =>
    simp only [lowerStr, List.map_cons] at ih ⊢
    rw [lowerChar_idem]
    rw [ih]


theorem stripBracketsGo_id :
    ∀ (fuel : Nat) (s : List Char), (∀ c ∈ s, isOpener c = false) →
      stripBracketsGo fuel s = s := by
  intro fuel
  induction fuel with
  | zero =>
    intro s h
    match s with
    | [] => rfl
    | c :: cs => rfl
  | succ fuel ih =>
    intro s h
    match s with
    | [] => rfl
    | c :: cs =>
      have hc := h c (by simp)
      simp only [stripBracketsGo, hc]
      rw [if_neg (by simp)]
      rw [ih cs fun x hx => h x (by simp [hx])]

theorem sepMatchAt_false (s : List Char) (h : ∀ c ∈ s, isWs c = false) :
    sepMatchAt s = false := by
  match s with
  | [] => rfl
  | c :: cs => simp [sepMatchAt, h c (by simp)]

theorem splitTruncate_id (s : List Char) (h : ∀ c ∈ s, isWs c = false) :
    splitTruncate s = s := by
  induction s with
  | nil => rfl
  | cons c cs ih =>
    simp only [splitTruncate, sepMatchAt_false (c :: cs) h]
    rw [if_neg (by simp)]
    rw [ih fun x hx => h x (by simp [hx])]

theorem stripFeatGo_id :
    ∀ (fuel : Nat) (s : List Char), (∀ c ∈ s, isWs c = false) →
      stripFeatGo fuel s = s := by
  intro fuel
  induction fuel with
  | zero =>
    intro s h
    match s with
    | [] => rfl
    | c :: cs => rfl
  | succ fuel ih =>
    intro s h
    match s with
    | [] => rfl
    | c :: cs =>
      have hc := h c (by simp)
      simp only [stripFeatGo, hc]
      rw [if_neg (by simp)]
      rw [ih cs fun x hx => h x (by simp [hx])]

theorem collapseWsGo_id :
    ∀ (fuel : Nat) (s : List Char), (∀ c ∈ s, isWs c = false) →
      collapseWsGo fuel s = s := by
  intro fuel
  induction fuel with
  | zero =>
    intro s h
    match s with
    | [] => rfl
    | c :: cs => rfl
  | succ fuel ih =>
    intro s h
    match s with
    | [] => rfl
    | c :: cs =>
      have hc := h c (by simp)
      simp only [collapseWsGo, hc]
      rw [if_neg (by simp)]
      rw [ih cs fun x hx => h x (by simp [hx])]

theorem dropWhile_eq_self_of (p : Char → Bool) (s : List Char)
    (h : ∀ c ∈ s, p c = false) : s.dropWhile p = s := by
  match s with
  | [] => rfl
  | c :: cs => simp [List.dropWhile_cons, h c (by simp)]

theorem trimStr_id (s : List Char) (h : ∀ c ∈ s, isWs c = false) :
    trimStr s = s := by
  unfold trimStr
  rw [dropWhile_eq_self_of _ s h,
    dropWhile_eq_self_of _ s.reverse fun c hc => h c (List.mem_reverse.mp hc),
    List.reverse_reverse]

theorem yearSuffix_mem (r u : List Char) (h : yearSuffix r = some u) :
    '(' ∈ r := by
  unfold yearSuffix at h
  split at h
  · simp
  · exact absurd h (by simp)

theorem stripYear_id (s : List Char) (h : '(' ∉ s) : stripYear s = s := by
  unfold stripYear
  rcases hy : yearSuffix (s.reverse.dropWhile isWs) with _ | u
  · rfl
  · have hmem := yearSuffix_mem _ _ hy
    have : '(' ∈ s :=
      List.mem_reverse.mp ((List.dropWhile_sublist _).subset hmem)
    exact absurd this h


theorem clean_eq_lower_of_plain (s : List Char)
    (h : ∀ c ∈ s, plainChar c = true) :
    cleanYoutubeTitle s = lowerStr s := by
  match s with
  | [] => rfl
  | c :: cs =>
    have hl : ∀ x ∈ lowerStr (c :: cs), plainChar x = true := lowerStr_plain _ h
    have hop : ∀ x ∈ lowerStr (c :: cs), isOpener x = false :=
      fun x hx => plain_not_opener x (hl x hx)
    have hws : ∀ x ∈ lowerStr (c :: cs), isWs x = false :=
      fun x hx => plain_not_ws x (hl x hx)
    have hpar : '(' ∉ lowerStr (c :: cs) :=
      fun hmem => absurd rfl (plain_ne_paren '(' (hl '(' hmem))
    show trimStr (collapseWs (stripYear (stripFeat (splitTruncate
      (stripBrackets (lowerStr (c :: cs))))))) = lowerStr (c :: cs)
    rw [stripBrackets, stripBracketsGo_id _ _ hop, splitTruncate_id _ hws,
      stripFeat, stripFeatGo_id _ _ hws, stripYear_id _ hpar,
      collapseWs, collapseWsGo_id _ _ hws, trimStr_id _ hws]

/-- C4 (amended): the normalizer is idempotent on every input made of
characters that are neither whitespace nor an opening `(`/`[` (on such
inputs normalization is exactly lowercasing, which is idempotent); it is
not idempotent in general, see the counterexample. -/
theorem c4_normalizer_idempotent_on_plain (s : List Char)
    (h : s.all plainChar = true) :
    cleanYoutubeTitle (cleanYoutubeTitle s) = cleanYoutubeTitle s := by
  have h1 : ∀ c ∈ s, plainChar c = true := by
    simpa [List.all_eq_true] using h
  rw [clean_eq_lower_of_plain s h1,
    clean_eq_lower_of_plain (lowerStr s) (lowerStr_plain s h1),
    lowerStr_idem]

theorem c4_normalizer_idempotent_on_plain_witness :
    (("Bohemian_Rhapsody".toList).all plainChar = true) ∧
    cleanYoutubeTitle (cleanYoutubeTitle ("Bohemian_Rhapsody".toList)) =
      cleanYoutubeTitle ("Bohemian_Rhapsody".toList) :=
  ⟨by decide, c4_normalizer_idempotent_on_plain ("Bohemian_Rhapsody".toList) (by decide)⟩

/-- C4 counterexample: the year-stripping step removes only the last
trailing parenthesized year, so a second normalization pass strips another
one (`"a (1999) (2000)"` normalizes to `"a (1999)"`, which normalizes
further to `"a"`). -/
theorem c4_normalizer_not_idempotent :
    cleanYoutubeTitle (cleanYoutubeTitle ("a (1999) (2000)".toList)) ≠
      cleanYoutubeTitle ("a (1999) (2000)".toList) := by decide

/-- C5: the separator class of the truncation step, taken verbatim from the
source, contains the mojibake code points U+00E2 U+20AC U+201C instead of
the en dash U+2013: a whitespace-surrounded ASCII `-` truncates the title,
but a whitespace-surrounded en dash does not (contradicting the claim), and
`–` is not a separator character of the compiled class. -/
theorem c5_en_dash_is_not_a_separator :
    cleanYoutubeTitle ("song – artist".toList) = "song – artist".toList ∧
    cleanYoutubeTitle ("song - artist".toList) = "song".toList ∧
    isSepChar '–' = false ∧ isSepChar '-' = true ∧
    sepMatchAt (" – b".toList) = false ∧ sepMatchAt (" - b".toList) = true := by
  decide


end PlaylistConv
